import Mathlib

/-!
Verification of the worker-pool web scraper
(`web-scrapper-with-worker-pool/main.go`).

The Go program is a bounded concurrent pipeline: a feeder goroutine sends a
fixed list of URLs into an unbuffered channel, `numWorkers` worker goroutines
compete for URLs, call `scrapeURL` on each and send the `ScrapeResult` into a
result channel, a coordinator goroutine waits on a `sync.WaitGroup` for all
workers and then closes the result channel, and a `resultCollector` goroutine
accumulates results in arrival order and hands the final slice to `main`
through a `done` channel.

We embed this shallowly:
* `scrapeURL` becomes a pure function over an injected fetch oracle
  (`http.Get` is external I/O; the oracle returns either a response with its
  elapsed time, or an error with its elapsed time).
* The concurrent pipeline becomes a small-step state machine `step` over
  `PoolState`, one constructor of `Action` per atomic event (an unbuffered
  channel handoff is a rendezvous, so one event moves a value end to end).
  A schedule is an arbitrary list of actions; disabled actions are skipped,
  so every list is a valid interleaving.  `runPool` folds a schedule from the
  initial state, with the worker count `n` and the URL list as parameters
  (the Go source hardcodes `numWorkers := 4` and a fixed list of URLs; the
  model generalises both, and `mainNumWorkers`/`mainURLs` record the literal
  values from `main`).
-/

/-- Outcome of one call of the external HTTP fetch (`http.Get` in Go):
either a response carrying a status code and a content length, or an error
message; in both cases the elapsed wall-clock time of the call is recorded,
since `scrapeURL` measures `time.Since(start)` on both branches. -/
inductive FetchOutcome where
  | ok (statusCode : Int) (contentLength : Int) (elapsed : Nat)
  | err (msg : String) (elapsed : Nat)
deriving DecidableEq, Repr

/-- The `ScrapeResult` struct of the Go source: URL, HTTP status code,
content length, elapsed duration and the error (`none` models Go's `nil`). -/
structure ScrapeResult where
  URL : String
  StatusCode : Int
  ContentLength : Int
  Duration : Nat
  Error : Option String
deriving DecidableEq, Repr

/-- Embedding of `scrapeURL` (main.go lines 29-73): call the fetch; on error
return a result holding only the URL, the duration and the error, with
`StatusCode` and `ContentLength` left at their zero values; on success return
all response fields with `Error` explicitly `none`. -/
def scrapeURL (fetch : String → FetchOutcome) (url : String) : ScrapeResult :=
  match fetch url with
  | .err msg elapsed =>
      { URL := url, StatusCode := 0, ContentLength := 0,
        Duration := elapsed, Error := some msg }
  | .ok statusCode contentLength elapsed =>
      { URL := url, StatusCode := statusCode, ContentLength := contentLength,
        Duration := elapsed, Error := none }

/-- The elapsed time recorded by a fetch outcome, on either branch. -/
def FetchOutcome.elapsed : FetchOutcome → Nat
  | .ok _ _ e => e
  | .err _ e => e

/-- Whether a fetch outcome is the success branch. -/
def FetchOutcome.isOk : FetchOutcome → Bool
  | .ok _ _ _ => true
  | .err _ _ => false

/-- The hardcoded worker count of `main` (main.go line 174). -/
def mainNumWorkers : Nat := 4

/-- The hardcoded URL list of `main` (main.go lines 158-167). -/
def mainURLs : List String :=
  [ "https://httpbin.org/delay/1",
    "https://httpbin.org/delay/2",
    "https://httpbin.org/delay/1",
    "https://httpbin.org/get",
    "https://httpbin.org/delay/3",
    "https://httpbin.org/status/200",
    "https://httpbin.org/delay/1",
    "https://httpbin.org/json" ]

/-- Phase of one worker goroutine: `idle` means blocked receiving on the URL
channel at the top of the `for url := range urlChannel` loop; `busy r` means
it has received a URL, computed `r := scrapeURL(url)` and is about to send
`r` on the result channel; `done` means the range loop has exited (channel
closed and drained) and the deferred `wg.Done()` has run. -/
inductive WorkerPhase where
  | idle
  | busy (r : ScrapeResult)
  | done
deriving DecidableEq, Repr

/-- One worker together with its event history: `tasks` is the list of URLs
it received from the URL channel, oldest first, and `sent` is the list of
results it sent on the result channel, oldest first. -/
structure WorkerState where
  phase : WorkerPhase
  tasks : List String
  sent : List ScrapeResult
deriving DecidableEq, Repr

/-- The result a worker still has to send, as a list: a `busy` worker holds
exactly one produced-but-unsent result, any other phase holds none. -/
def WorkerPhase.pendingOut : WorkerPhase → List ScrapeResult
  | .busy r => [r]
  | _ => []

/-- `true` iff the worker's range loop has exited. -/
def WorkerState.isDone (w : WorkerState) : Bool :=
  match w.phase with
  | .done => true
  | _ => false

/-- Global state of the pipeline.  `pending` is what the feeder goroutine
still has to send, `fedLog` what it has sent (in order); `urlClosed` and
`resultClosed` model `close(urlChannel)` and `close(resultChannel)`;
`collected` is the collector's `results` slice in arrival order; `delivered`
is `some rs` once the collector has executed `done <- results` and `main`
has received it. -/
structure PoolState where
  pending : List String
  fedLog : List String
  urlClosed : Bool
  workers : List WorkerState
  collected : List ScrapeResult
  resultClosed : Bool
  delivered : Option (List ScrapeResult)
deriving DecidableEq, Repr

/-- Atomic events of the pipeline.  Channel handoffs on unbuffered channels
are rendezvous, so each is one event: `feed w` moves the next URL from the
feeder to idle worker `w` (which then computes its result); `closeTasks` is
the feeder's `close(urlChannel)` after the last send; `exitWorker w` is
worker `w`'s range loop observing the closed, drained URL channel and
running its deferred `wg.Done()`; `send w` moves worker `w`'s result to the
collector, which appends it; `closeResults` is the coordinator's
`close(resultChannel)` once `wg.Wait()` returns, i.e. once every worker is
done; `deliver` is the collector's `done <- results` rendezvous with
`main`'s `results := <-done`. -/
inductive PoolAction where
  | feed (w : Nat)
  | closeTasks
  | exitWorker (w : Nat)
  | send (w : Nat)
  | closeResults
  | deliver
deriving DecidableEq, Repr

/-- One small step of the pipeline: `none` when the action is not enabled in
state `s` (its guard fails), otherwise the successor state. -/
def step (fetch : String → FetchOutcome) (s : PoolState) : PoolAction → Option PoolState
  | .feed w =>
    match s.pending, s.workers[w]? with
    | u :: rest, some ws =>
      match ws.phase with
      | .idle =>
        some { s with
          pending := rest
          fedLog := s.fedLog ++ [u]
          workers := s.workers.set w
            { phase := .busy (scrapeURL fetch u),
              tasks := ws.tasks ++ [u], sent := ws.sent } }
      | _ => none
    | _, _ => none
  | .closeTasks =>
    if s.pending = [] ∧ s.urlClosed = false then
      some { s with urlClosed := true }
    else none
  | .exitWorker w =>
    match s.workers[w]? with
    | some ws =>
      match ws.phase with
      | .idle =>
        if s.urlClosed = true then
          some { s with workers := s.workers.set w { ws with phase := .done } }
        else none
      | _ => none
    | none => none
  | .send w =>
    match s.workers[w]? with
    | some ws =>
      match ws.phase with
      | .busy r =>
        if s.resultClosed = false then
          some { s with
            collected := s.collected ++ [r]
            workers := s.workers.set w
              { phase := .idle, tasks := ws.tasks, sent := ws.sent ++ [r] } }
        else none
      | _ => none
    | none => none
  | .closeResults =>
    if s.resultClosed = false ∧ s.workers.all WorkerState.isDone then
      some { s with resultClosed := true }
    else none
  | .deliver =>
    if s.resultClosed = true ∧ s.delivered = none then
      some { s with delivered := some s.collected }
    else none

/-- Apply an action if it is enabled, else stay put; this makes every action
list a valid schedule (an interleaving with some no-ops). -/
def stepOr (fetch : String → FetchOutcome) (s : PoolState) (a : PoolAction) : PoolState :=
  (step fetch s a).getD s

/-- The initial state assembled by `main`: the whole URL list is pending,
both channels open, `n` freshly started idle workers, nothing collected,
nothing delivered. -/
def initState (n : Nat) (urls : List String) : PoolState :=
  { pending := urls
    fedLog := []
    urlClosed := false
    workers := List.replicate n ⟨.idle, [], []⟩
    collected := []
    resultClosed := false
    delivered := none }

/-- Run the pipeline with `n` workers on `urls` under schedule `acts`. -/
def runPool (fetch : String → FetchOutcome) (n : Nat) (urls : List String)
    (acts : List PoolAction) : PoolState :=
  acts.foldl (stepOr fetch) (initState n urls)

/-- Replacing the element at index `i` (currently `ws`) by `b` changes a
mapped sum by swapping `f ws` for `f b`. -/
theorem sum_map_set_add {α M : Type _} [AddCommMonoid M] (f : α → M) :
    ∀ (l : List α) (i : Nat) (b ws : α), l[i]? = some ws →
      ((l.set i b).map f).sum + f ws = (l.map f).sum + f b := by
  intro l
  induction l with
  | nil => intro i b ws h; simp at h
  | cons hd tl ih =>
    intro i b ws h
    cases i with
    | zero =>
      simp only [List.getElem?_cons_zero, Option.some.injEq] at h
      subst h
      simp only [List.set_cons_zero, List.map_cons, List.sum_cons]
      abel
    | succ j =>
      simp only [List.getElem?_cons_succ] at h
      simp only [List.set_cons_succ, List.map_cons, List.sum_cons, add_assoc]
      rw [ih j b ws h]

/-- Cancellative corollary of `sum_map_set_add`: if the new element adds `d`
to the old one's measure, the whole mapped sum grows by `d`. -/
theorem sum_map_set_eq {α M : Type _} [AddCancelCommMonoid M] (f : α → M)
    (l : List α) (i : Nat) (b ws : α) (h : l[i]? = some ws) (d : M)
    (hb : f b = f ws + d) :
    ((l.set i b).map f).sum = (l.map f).sum + d := by
  have h1 := sum_map_set_add f l i b ws h
  rw [hb] at h1
  have h2 : (l.map f).sum + (f ws + d) = ((l.map f).sum + d) + f ws := by abel
  rw [h2] at h1
  exact add_right_cancel h1

/-- `sum_map_set_eq` with an unchanged measure. -/
theorem sum_map_set_congr {α M : Type _} [AddCancelCommMonoid M] (f : α → M)
    (l : List α) (i : Nat) (b ws : α) (h : l[i]? = some ws)
    (hb : f b = f ws) :
    ((l.set i b).map f).sum = (l.map f).sum := by
  have := sum_map_set_eq f l i b ws h 0 (by rw [hb, add_zero])
  simpa using this

/-- A worker's done flag reflects its phase. -/
theorem isDone_iff (w : WorkerState) : w.isDone = true ↔ w.phase = .done := by
  obtain ⟨ph, t, sn⟩ := w
  cases ph <;> simp [WorkerState.isDone]

/-- The inductive invariant of the pipeline, for worker count `n` and task
list `urls`.  It records, among other facts, the accounting that ties the
feeder's log to the workers' received tasks and the workers' sent results to
the collector's list. -/
structure PoolInv (fetch : String → FetchOutcome) (n : Nat) (urls : List String)
    (s : PoolState) : Prop where
  wlen : s.workers.length = n
  feed_order : s.fedLog ++ s.pending = urls
  closed_pending : s.urlClosed = true → s.pending = []
  done_closed : ∀ w ∈ s.workers, w.phase = .done → s.urlClosed = true
  rclosed_done : s.resultClosed = true → ∀ w ∈ s.workers, w.phase = .done
  worker_order : ∀ w ∈ s.workers,
    w.tasks.map (scrapeURL fetch) = w.sent ++ w.phase.pendingOut
  task_account :
    (s.workers.map fun w => (w.tasks : Multiset String)).sum
      = (s.fedLog : Multiset String)
  result_account :
    (s.workers.map fun w => (w.sent : Multiset ScrapeResult)).sum
      = (s.collected : Multiset ScrapeResult)
  delivered_inv : ∀ rs, s.delivered = some rs →
    s.resultClosed = true ∧ rs = s.collected

/-- The initial state satisfies the invariant. -/
theorem inv_init (fetch : String → FetchOutcome) (n : Nat) (urls : List String) :
    PoolInv fetch n urls (initState n urls) where
  wlen := by simp [initState]
  feed_order := by simp [initState]
  closed_pending := by intro h; simp [initState] at h
  done_closed := by
    intro w hw hph
    simp only [initState] at hw
    have := List.eq_of_mem_replicate hw
    subst this
    simp at hph
  rclosed_done := by intro h; simp [initState] at h
  worker_order := by
    intro w hw
    simp only [initState] at hw
    have := List.eq_of_mem_replicate hw
    subst this
    simp [WorkerPhase.pendingOut]
  task_account := by
    simp [initState, List.map_replicate]
  result_account := by
    simp [initState, List.map_replicate]
  delivered_inv := by intro rs h; simp [initState] at h

/-- `feed` preserves the invariant. -/
theorem inv_feed {fetch : String → FetchOutcome} {n : Nat} {urls : List String}
    {s : PoolState} (h : PoolInv fetch n urls s)
    {w : Nat} {u : String} {rest : List String} {ws : WorkerState}
    (hp : s.pending = u :: rest) (hw : s.workers[w]? = some ws)
    (hph : ws.phase = .idle) :
    PoolInv fetch n urls { s with
      pending := rest
      fedLog := s.fedLog ++ [u]
      workers := s.workers.set w
        { phase := .busy (scrapeURL fetch u),
          tasks := ws.tasks ++ [u], sent := ws.sent } } where
  wlen := by simp [h.wlen]
  feed_order := by
    have h1 := h.feed_order
    rw [hp] at h1
    rw [List.append_assoc]
    simpa using h1
  closed_pending := by
    intro hc
    have h1 := h.closed_pending hc
    rw [hp] at h1
    simp at h1
  done_closed := by
    intro w' hw' hph'
    rcases List.mem_or_eq_of_mem_set hw' with hmem | heq
    · exact h.done_closed w' hmem hph'
    · rw [heq] at hph'; simp at hph'
  rclosed_done := by
    intro hrc
    have hd := h.rclosed_done hrc ws (List.getElem?_mem hw)
    rw [hph] at hd
    simp at hd
  worker_order := by
    intro w' hw'
    rcases List.mem_or_eq_of_mem_set hw' with hmem | heq
    · exact h.worker_order w' hmem
    · have ho := h.worker_order ws (List.getElem?_mem hw)
      rw [hph] at ho
      simp only [WorkerPhase.pendingOut, List.append_nil] at ho
      rw [heq]
      simp [WorkerPhase.pendingOut, ho]
  task_account := by
    have hb : ((↑(ws.tasks ++ [u]) : Multiset String)) = ↑ws.tasks + ↑[u] :=
      (Multiset.coe_add _ _).symm
    rw [sum_map_set_eq (fun w => (↑w.tasks : Multiset String)) s.workers w _ ws hw _ hb,
      h.task_account]
    exact Multiset.coe_add _ _
  result_account := by
    rw [sum_map_set_congr (fun w => (↑w.sent : Multiset ScrapeResult)) s.workers w
      { phase := .busy (scrapeURL fetch u), tasks := ws.tasks ++ [u], sent := ws.sent }
      ws hw (by rfl)]
    exact h.result_account
  delivered_inv := fun rs hd => h.delivered_inv rs hd

/-- `closeTasks` preserves the invariant. -/
theorem inv_closeTasks {fetch : String → FetchOutcome} {n : Nat} {urls : List String}
    {s : PoolState} (h : PoolInv fetch n urls s)
    (hp : s.pending = []) (_hc : s.urlClosed = false) :
    PoolInv fetch n urls { s with urlClosed := true } where
  wlen := h.wlen
  feed_order := h.feed_order
  closed_pending := fun _ => hp
  done_closed := fun _ _ _ => rfl
  rclosed_done := h.rclosed_done
  worker_order := h.worker_order
  task_account := h.task_account
  result_account := h.result_account
  delivered_inv := fun rs hd => h.delivered_inv rs hd

/-- `exitWorker` preserves the invariant. -/
theorem inv_exit {fetch : String → FetchOutcome} {n : Nat} {urls : List String}
    {s : PoolState} (h : PoolInv fetch n urls s)
    {w : Nat} {ws : WorkerState}
    (hw : s.workers[w]? = some ws) (hph : ws.phase = .idle)
    (hc : s.urlClosed = true) :
    PoolInv fetch n urls
      { s with workers := s.workers.set w { ws with phase := .done } } where
  wlen := by simp [h.wlen]
  feed_order := h.feed_order
  closed_pending := h.closed_pending
  done_closed := fun _ _ _ => hc
  rclosed_done := by
    intro hrc w' hw'
    rcases List.mem_or_eq_of_mem_set hw' with hmem | heq
    · exact h.rclosed_done hrc w' hmem
    · rw [heq]
  worker_order := by
    intro w' hw'
    rcases List.mem_or_eq_of_mem_set hw' with hmem | heq
    · exact h.worker_order w' hmem
    · have ho := h.worker_order ws (List.getElem?_mem hw)
      rw [hph] at ho
      rw [heq]
      simpa [WorkerPhase.pendingOut] using ho
  task_account := by
    rw [sum_map_set_congr (fun w => (↑w.tasks : Multiset String)) s.workers w
      { ws with phase := .done } ws hw (by rfl)]
    exact h.task_account
  result_account := by
    rw [sum_map_set_congr (fun w => (↑w.sent : Multiset ScrapeResult)) s.workers w
      { ws with phase := .done } ws hw (by rfl)]
    exact h.result_account
  delivered_inv := fun rs hd => h.delivered_inv rs hd

/-- `send` preserves the invariant. -/
theorem inv_send {fetch : String → FetchOutcome} {n : Nat} {urls : List String}
    {s : PoolState} (h : PoolInv fetch n urls s)
    {w : Nat} {ws : WorkerState} {r : ScrapeResult}
    (hw : s.workers[w]? = some ws) (hph : ws.phase = .busy r)
    (hrc : s.resultClosed = false) :
    PoolInv fetch n urls { s with
      collected := s.collected ++ [r]
      workers := s.workers.set w
        { phase := .idle, tasks := ws.tasks, sent := ws.sent ++ [r] } } where
  wlen := by simp [h.wlen]
  feed_order := h.feed_order
  closed_pending := h.closed_pending
  done_closed := by
    intro w' hw' hph'
    rcases List.mem_or_eq_of_mem_set hw' with hmem | heq
    · exact h.done_closed w' hmem hph'
    · rw [heq] at hph'; simp at hph'
  rclosed_done := by
    intro hrc'
    have h2 : s.resultClosed = true := hrc'
    rw [hrc] at h2
    exact absurd h2 Bool.false_ne_true
  worker_order := by
    intro w' hw'
    rcases List.mem_or_eq_of_mem_set hw' with hmem | heq
    · exact h.worker_order w' hmem
    · have ho := h.worker_order ws (List.getElem?_mem hw)
      rw [hph] at ho
      rw [heq]
      simpa [WorkerPhase.pendingOut] using ho
  task_account := by
    rw [sum_map_set_congr (fun w => (↑w.tasks : Multiset String)) s.workers w
      { phase := .idle, tasks := ws.tasks, sent := ws.sent ++ [r] } ws hw (by rfl)]
    exact h.task_account
  result_account := by
    have hb : ((↑(ws.sent ++ [r]) : Multiset ScrapeResult)) = ↑ws.sent + ↑[r] :=
      (Multiset.coe_add _ _).symm
    rw [sum_map_set_eq (fun w => (↑w.sent : Multiset ScrapeResult)) s.workers w _ ws hw _ hb,
      h.result_account]
    exact Multiset.coe_add _ _
  delivered_inv := by
    intro rs hd
    have h2 := (h.delivered_inv rs hd).1
    rw [hrc] at h2
    exact absurd h2 Bool.false_ne_true

/-- `closeResults` preserves the invariant. -/
theorem inv_closeResults {fetch : String → FetchOutcome} {n : Nat} {urls : List String}
    {s : PoolState} (h : PoolInv fetch n urls s)
    (hrc : s.resultClosed = false)
    (hall : s.workers.all WorkerState.isDone = true) :
    PoolInv fetch n urls { s with resultClosed := true } where
  wlen := h.wlen
  feed_order := h.feed_order
  closed_pending := h.closed_pending
  done_closed := h.done_closed
  rclosed_done := by
    intro _ w' hw'
    exact (isDone_iff w').mp (List.all_eq_true.mp hall w' hw')
  worker_order := h.worker_order
  task_account := h.task_account
  result_account := h.result_account
  delivered_inv := by
    intro rs hd
    have h2 := (h.delivered_inv rs hd).1
    rw [hrc] at h2
    exact absurd h2 Bool.false_ne_true

/-- `deliver` preserves the invariant. -/
theorem inv_deliver {fetch : String → FetchOutcome} {n : Nat} {urls : List String}
    {s : PoolState} (h : PoolInv fetch n urls s)
    (hrc : s.resultClosed = true) (_hd : s.delivered = none) :
    PoolInv fetch n urls { s with delivered := some s.collected } where
  wlen := h.wlen
  feed_order := h.feed_order
  closed_pending := h.closed_pending
  done_closed := h.done_closed
  rclosed_done := h.rclosed_done
  worker_order := h.worker_order
  task_account := h.task_account
  result_account := h.result_account
  delivered_inv := by
    intro rs hds
    have h2 : some s.collected = some rs := hds
    exact ⟨hrc, (Option.some.inj h2).symm⟩

/-- Any enabled step preserves the invariant. -/
theorem inv_step {fetch : String → FetchOutcome} {n : Nat} {urls : List String}
    {s s' : PoolState} {a : PoolAction} (h : PoolInv fetch n urls s)
    (hs : step fetch s a = some s') : PoolInv fetch n urls s' := by
  cases a with
  | feed w =>
    simp only [step] at hs
    split at hs
    · rename_i u rest ws hp hw
      split at hs
      · rename_i hph
        injection hs with hs
        subst hs
        exact inv_feed h hp hw hph
      · cases hs
    · cases hs
  | closeTasks =>
    simp only [step] at hs
    split at hs
    · rename_i hcond
      injection hs with hs
      subst hs
      exact inv_closeTasks h hcond.1 hcond.2
    · cases hs
  | exitWorker w =>
    simp only [step] at hs
    split at hs
    · rename_i ws hw
      split at hs
      · rename_i hph
        split at hs
        · rename_i hc
          injection hs with hs
          subst hs
          exact inv_exit h hw hph hc
        · cases hs
      · cases hs
    · cases hs
  | send w =>
    simp only [step] at hs
    split at hs
    · rename_i ws hw
      split at hs
      · rename_i r hph
        split at hs
        · rename_i hrc
          injection hs with hs
          subst hs
          exact inv_send h hw hph hrc
        · cases hs
      · cases hs
    · cases hs
  | closeResults =>
    simp only [step] at hs
    split at hs
    · rename_i hcond
      injection hs with hs
      subst hs
      exact inv_closeResults h hcond.1 hcond.2
    · cases hs
  | deliver =>
    simp only [step] at hs
    split at hs
    · rename_i hcond
      injection hs with hs
      subst hs
      exact inv_deliver h hcond.1 hcond.2
    · cases hs

/-- A scheduled step (enabled or skipped) preserves the invariant. -/
theorem inv_stepOr {fetch : String → FetchOutcome} {n : Nat} {urls : List String}
    {s : PoolState} (h : PoolInv fetch n urls s) (a : PoolAction) :
    PoolInv fetch n urls (stepOr fetch s a) := by
  unfold stepOr
  cases hs : step fetch s a with
  | none => exact h
  | some s' => exact inv_step h hs

/-- The invariant holds after folding any schedule from an invariant state. -/
theorem inv_foldl {fetch : String → FetchOutcome} {n : Nat} {urls : List String} :
    ∀ (acts : List PoolAction) (s : PoolState), PoolInv fetch n urls s →
      PoolInv fetch n urls (acts.foldl (stepOr fetch) s) := by
  intro acts
  induction acts with
  | nil => intro s h; exact h
  | cons a rest ih =>
    intro s h
    exact ih (stepOr fetch s a) (inv_stepOr h a)

/-- Every reachable state of the pipeline satisfies the invariant. -/
theorem inv_run (fetch : String → FetchOutcome) (n : Nat) (urls : List String)
    (acts : List PoolAction) : PoolInv fetch n urls (runPool fetch n urls acts) :=
  inv_foldl acts (initState n urls) (inv_init fetch n urls)

/-- If every worker has sent exactly the scrapes of its received tasks, the
total multiset of sent results is the scrape-image of the total multiset of
received tasks. -/
theorem sum_sent_eq_map_tasks (f : String → ScrapeResult) :
    ∀ (l : List WorkerState), (∀ w ∈ l, w.tasks.map f = w.sent) →
      (l.map fun w => (↑w.sent : Multiset ScrapeResult)).sum
        = Multiset.map f (l.map fun w => (↑w.tasks : Multiset String)).sum := by
  intro l
  induction l with
  | nil => intro _; simp
  | cons hd tl ih =>
    intro hall
    simp only [List.map_cons, List.sum_cons, Multiset.map_add]
    rw [ih (fun w hw => hall w (List.mem_cons_of_mem _ hw))]
    congr 1
    rw [Multiset.map_coe, hall hd (List.mem_cons_self _ _)]

/-- Everything the invariant yields about a state that has delivered `rs`,
provided there is at least one worker: the delivered collection is, as a
multiset, exactly one scrape result per submitted URL; every URL was handed
to exactly one worker exactly once; the feeder emitted the whole list in
order; every worker has terminated; and the result stream is closed with
`rs` equal to the collector's list. -/
theorem final_state_facts {fetch : String → FetchOutcome} {n : Nat}
    {urls : List String} {s : PoolState} {rs : List ScrapeResult}
    (h : PoolInv fetch n urls s) (hn : 1 ≤ n) (hd : s.delivered = some rs) :
    (↑rs : Multiset ScrapeResult) = ↑(urls.map (scrapeURL fetch))
    ∧ (s.workers.map fun w => (↑w.tasks : Multiset String)).sum
        = (↑urls : Multiset String)
    ∧ s.fedLog = urls
    ∧ (∀ w ∈ s.workers, w.phase = .done)
    ∧ s.resultClosed = true
    ∧ rs = s.collected := by
  have hdel := h.delivered_inv rs hd
  have hrc := hdel.1
  have hall := h.rclosed_done hrc
  have hpos : 0 < s.workers.length := by
    have := h.wlen
    omega
  obtain ⟨w0, hw0⟩ := List.exists_mem_of_length_pos hpos
  have hurl : s.urlClosed = true := h.done_closed w0 hw0 (hall w0 hw0)
  have hpend : s.pending = [] := h.closed_pending hurl
  have hfed : s.fedLog = urls := by
    have h1 := h.feed_order
    rw [hpend, List.append_nil] at h1
    exact h1
  have hsent : ∀ w ∈ s.workers, w.tasks.map (scrapeURL fetch) = w.sent := by
    intro w hwmem
    have h1 := h.worker_order w hwmem
    rw [hall w hwmem] at h1
    simpa [WorkerPhase.pendingOut] using h1
  have htask : (s.workers.map fun w => (↑w.tasks : Multiset String)).sum
      = (↑urls : Multiset String) := by
    rw [h.task_account, hfed]
  refine ⟨?_, htask, hfed, hall, hrc, hdel.2⟩
  rw [hdel.2, ← h.result_account, sum_sent_eq_map_tasks (scrapeURL fetch) s.workers hsent,
    htask, Multiset.map_coe]

/-- Once the pipeline has delivered a collection, no later step changes it:
delivery is single-use. -/
theorem stepOr_delivered_mono {fetch : String → FetchOutcome} {s : PoolState}
    {rs : List ScrapeResult} (h : s.delivered = some rs) (a : PoolAction) :
    (stepOr fetch s a).delivered = some rs := by
  unfold stepOr
  cases hs : step fetch s a with
  | none => exact h
  | some s' =>
    cases a with
    | feed w =>
      simp only [step] at hs
      split at hs
      · split at hs
        · injection hs with hs; subst hs; exact h
        · cases hs
      · cases hs
    | closeTasks =>
      simp only [step] at hs
      split at hs
      · injection hs with hs; subst hs; exact h
      · cases hs
    | exitWorker w =>
      simp only [step] at hs
      split at hs
      · split at hs
        · split at hs
          · injection hs with hs; subst hs; exact h
          · cases hs
        · cases hs
      · cases hs
    | send w =>
      simp only [step] at hs
      split at hs
      · split at hs
        · split at hs
          · injection hs with hs; subst hs; exact h
          · cases hs
        · cases hs
      · cases hs
    | closeResults =>
      simp only [step] at hs
      split at hs
      · injection hs with hs; subst hs; exact h
      · cases hs
    | deliver =>
      simp only [step] at hs
      split at hs
      · rename_i hcond
        rw [h] at hcond
        cases hcond.2
      · cases hs

/-- Fold version of `stepOr_delivered_mono`. -/
theorem foldl_delivered_mono {fetch : String → FetchOutcome}
    {rs : List ScrapeResult} :
    ∀ (acts : List PoolAction) (s : PoolState), s.delivered = some rs →
      (acts.foldl (stepOr fetch) s).delivered = some rs := by
  intro acts
  induction acts with
  | nil => intro s h; exact h
  | cons a rest ih =>
    intro s h
    exact ih (stepOr fetch s a) (stepOr_delivered_mono h a)

/-- One step only ever appends to the collector's list. -/
theorem stepOr_collected_mono {fetch : String → FetchOutcome} (s : PoolState)
    (a : PoolAction) :
    ∃ e, (stepOr fetch s a).collected = s.collected ++ e := by
  unfold stepOr
  cases hs : step fetch s a with
  | none => exact ⟨[], by simp⟩
  | some s' =>
    cases a with
    | feed w =>
      simp only [step] at hs
      split at hs
      · split at hs
        · injection hs with hs; subst hs; exact ⟨[], by simp⟩
        · cases hs
      · cases hs
    | closeTasks =>
      simp only [step] at hs
      split at hs
      · injection hs with hs; subst hs; exact ⟨[], by simp⟩
      · cases hs
    | exitWorker w =>
      simp only [step] at hs
      split at hs
      · split at hs
        · split at hs
          · injection hs with hs; subst hs; exact ⟨[], by simp⟩
          · cases hs
        · cases hs
      · cases hs
    | send w =>
      simp only [step] at hs
      split at hs
      · rename_i ws hw
        split at hs
        · rename_i r hph
          split at hs
          · injection hs with hs; subst hs; exact ⟨[r], rfl⟩
          · cases hs
        · cases hs
      · cases hs
    | closeResults =>
      simp only [step] at hs
      split at hs
      · injection hs with hs; subst hs; exact ⟨[], by simp⟩
      · cases hs
    | deliver =>
      simp only [step] at hs
      split at hs
      · injection hs with hs; subst hs; exact ⟨[], by simp⟩
      · cases hs

/-- Fold version of `stepOr_collected_mono`: the collector's list under a
longer schedule extends its list under a shorter one — results are appended
in arrival order and never dropped. -/
theorem foldl_collected_mono {fetch : String → FetchOutcome} :
    ∀ (acts : List PoolAction) (s : PoolState),
      ∃ e, (acts.foldl (stepOr fetch) s).collected = s.collected ++ e := by
  intro acts
  induction acts with
  | nil => intro s; exact ⟨[], by simp⟩
  | cons a rest ih =>
    intro s
    obtain ⟨e1, he1⟩ := @stepOr_collected_mono fetch s a
    obtain ⟨e2, he2⟩ := ih (stepOr fetch s a)
    exact ⟨e1 ++ e2, by rw [List.foldl_cons, he2, he1, List.append_assoc]⟩

/-- With a single worker, the collector's list is exactly that worker's sent
list and the feeder's log is exactly its received task list — the sequential
(degenerate) case keeps everything in submission order. -/
def seqInv (s : PoolState) : Prop :=
  ∀ w0, s.workers = [w0] → s.collected = w0.sent ∧ s.fedLog = w0.tasks

/-- The initial state satisfies the sequential invariant. -/
theorem seqInv_init (n : Nat) (urls : List String) : seqInv (initState n urls) := by
  intro w0 hw0
  simp only [initState] at hw0
  have hmem : w0 ∈ List.replicate n (⟨.idle, [], []⟩ : WorkerState) := by
    rw [hw0]
    exact List.mem_cons_self _ _
  have := List.eq_of_mem_replicate hmem
  subst this
  exact ⟨rfl, rfl⟩

/-- If setting index `w` of a worker list produces a singleton, the list was
a singleton holding the looked-up worker, `w` is `0`, and the result is the
new worker. -/
theorem singleton_set_helper {l : List WorkerState} {w : Nat} {ws b w0 : WorkerState}
    (hw : l[w]? = some ws) (hset : l.set w b = [w0]) :
    l = [ws] ∧ w = 0 ∧ w0 = b := by
  have hlen : l.length = 1 := by
    have := congrArg List.length hset
    simpa using this
  cases l with
  | nil => simp at hlen
  | cons o tl =>
    cases tl with
    | nil =>
      cases w with
      | zero =>
        simp only [List.getElem?_cons_zero, Option.some.injEq] at hw
        subst hw
        simp only [List.set_cons_zero] at hset
        injection hset with h1 _
        exact ⟨rfl, rfl, h1.symm⟩
      | succ k => simp at hw
    | cons o2 tl2 => simp at hlen

/-- A scheduled step preserves the sequential invariant. -/
theorem seqInv_stepOr {fetch : String → FetchOutcome} {s : PoolState}
    (h : seqInv s) (a : PoolAction) : seqInv (stepOr fetch s a) := by
  unfold stepOr
  cases hs : step fetch s a with
  | none => exact h
  | some s' =>
    cases a with
    | feed w =>
      simp only [step] at hs
      split at hs
      · rename_i u rest ws hp hw
        split at hs
        · injection hs with hs
          subst hs
          intro w0 hw0
          obtain ⟨hl, -, hb⟩ := singleton_set_helper hw hw0
          obtain ⟨hcol, hfed⟩ := h ws hl
          subst hb
          refine ⟨hcol, ?_⟩
          show s.fedLog ++ [u] = ws.tasks ++ [u]
          rw [hfed]
        · cases hs
      · cases hs
    | closeTasks =>
      simp only [step] at hs
      split at hs
      · injection hs with hs
        subst hs
        intro w0 hw0
        exact h w0 hw0
      · cases hs
    | exitWorker w =>
      simp only [step] at hs
      split at hs
      · rename_i ws hw
        split at hs
        · split at hs
          · injection hs with hs
            subst hs
            intro w0 hw0
            obtain ⟨hl, -, hb⟩ := singleton_set_helper hw hw0
            obtain ⟨hcol, hfed⟩ := h ws hl
            subst hb
            exact ⟨hcol, hfed⟩
          · cases hs
        · cases hs
      · cases hs
    | send w =>
      simp only [step] at hs
      split at hs
      · rename_i ws hw
        split at hs
        · rename_i r hph
          split at hs
          · injection hs with hs
            subst hs
            intro w0 hw0
            obtain ⟨hl, -, hb⟩ := singleton_set_helper hw hw0
            obtain ⟨hcol, hfed⟩ := h ws hl
            subst hb
            refine ⟨?_, hfed⟩
            show s.collected ++ [r] = ws.sent ++ [r]
            rw [hcol]
          · cases hs
        · cases hs
      · cases hs
    | closeResults =>
      simp only [step] at hs
      split at hs
      · injection hs with hs
        subst hs
        intro w0 hw0
        exact h w0 hw0
      · cases hs
    | deliver =>
      simp only [step] at hs
      split at hs
      · injection hs with hs
        subst hs
        intro w0 hw0
        exact h w0 hw0
      · cases hs

/-- Every reachable state satisfies the sequential invariant. -/
theorem seqInv_run (fetch : String → FetchOutcome) (n : Nat) (urls : List String)
    (acts : List PoolAction) : seqInv (runPool fetch n urls acts) := by
  have key : ∀ (as : List PoolAction) (s : PoolState), seqInv s →
      seqInv (as.foldl (stepOr fetch) s) := by
    intro as
    induction as with
    | nil => intro s hs; exact hs
    | cons a rest ih => intro s hs; exact ih _ (seqInv_stepOr hs a)
  exact key acts _ (seqInv_init n urls)

/-- With exactly one worker, a delivered collection is the scrape results of
the URLs in submission order. -/
theorem seq_delivery {fetch : String → FetchOutcome} {urls : List String}
    {acts : List PoolAction} {rs : List ScrapeResult}
    (hd : (runPool fetch 1 urls acts).delivered = some rs) :
    rs = urls.map (scrapeURL fetch) := by
  have h := inv_run fetch 1 urls acts
  have hq := seqInv_run fetch 1 urls acts
  obtain ⟨w0, hw0⟩ := List.length_eq_one.mp (h.wlen)
  obtain ⟨hcol, hfed⟩ := hq w0 hw0
  have hfacts := final_state_facts h (le_refl 1) hd
  have hmem : w0 ∈ (runPool fetch 1 urls acts).workers := by
    rw [hw0]
    exact List.mem_cons_self _ _
  have hdone : w0.phase = .done := hfacts.2.2.2.1 w0 hmem
  have hsent : w0.tasks.map (scrapeURL fetch) = w0.sent := by
    have h1 := h.worker_order w0 hmem
    rw [hdone] at h1
    simpa [WorkerPhase.pendingOut] using h1
  rw [hfacts.2.2.2.2.2, hcol, ← hsent, ← hfed, hfacts.2.2.1]

/-- A fetch oracle that succeeds on every URL (status 200, length 5, 1 time
unit). -/
def fetchOkT : String → FetchOutcome := fun _ => .ok 200 5 1

/-- A fetch oracle that fails on every URL. -/
def fetchErrT : String → FetchOutcome := fun _ => .err "dial tcp: connection refused" 2

/-- A two-task list for concrete runs. -/
def urlsT : List String := ["a", "b"]

/-- A complete single-worker schedule for `urlsT`: feed and send each task in
turn, close the task stream, let the worker exit, close the result stream,
deliver. -/
def seqSchedule : List PoolAction :=
  [.feed 0, .send 0, .feed 0, .send 0, .closeTasks, .exitWorker 0, .closeResults, .deliver]

/-- A complete two-worker schedule for `urlsT` in which worker 1's result
arrives before worker 0's (out-of-order fan-in). -/
def twoSchedule : List PoolAction :=
  [.feed 0, .feed 1, .send 1, .send 0, .closeTasks,
   .exitWorker 0, .exitWorker 1, .closeResults, .deliver]

/-- Claim C1: for every worker count N ≥ 1 and every finite task list of
size M, any collection the pipeline delivers contains, as a multiset,
exactly one Result per submitted task — no duplicates, no omissions — hence
exactly M Results; and the per-worker received-task lists partition the task
list, i.e. each task was handed to exactly one worker exactly once. -/
theorem C1_delivery_complete (fetch : String → FetchOutcome) (n : Nat)
    (urls : List String) (acts : List PoolAction) (rs : List ScrapeResult)
    (hn : 1 ≤ n) (hd : (runPool fetch n urls acts).delivered = some rs) :
    (↑rs : Multiset ScrapeResult) = ↑(urls.map (scrapeURL fetch))
    ∧ rs.length = urls.length
    ∧ ((runPool fetch n urls acts).workers.map
        fun w => (↑w.tasks : Multiset String)).sum = (↑urls : Multiset String) := by
  have hfacts := final_state_facts (inv_run fetch n urls acts) hn hd
  refine ⟨hfacts.1, ?_, hfacts.2.1⟩
  have := congrArg Multiset.card hfacts.1
  simpa using this

/-- Concrete witness for C1: two workers, out-of-order arrival. -/
theorem C1_delivery_complete_witness :
    (1 ≤ 2 ∧ (runPool fetchOkT 2 urlsT twoSchedule).delivered
      = some [scrapeURL fetchOkT "b", scrapeURL fetchOkT "a"])
    ∧ ((↑[scrapeURL fetchOkT "b", scrapeURL fetchOkT "a"] : Multiset ScrapeResult)
        = ↑(urlsT.map (scrapeURL fetchOkT))
      ∧ [scrapeURL fetchOkT "b", scrapeURL fetchOkT "a"].length = urlsT.length
      ∧ ((runPool fetchOkT 2 urlsT twoSchedule).workers.map
          fun w => (↑w.tasks : Multiset String)).sum = (↑urlsT : Multiset String)) :=
  ⟨⟨by decide, by decide⟩,
    C1_delivery_complete fetchOkT 2 urlsT twoSchedule _ (by decide) (by decide)⟩

/-- Claim C2: the result stream is closed only after all N workers have
terminated: whenever a reachable state has the result stream closed, every
one of the workers is `done`, and the worker list has length exactly N (the
coordinator's barrier joined exactly N completion signals — `done` is
absorbing, so each worker signalled exactly once). -/
theorem C2_close_after_join (fetch : String → FetchOutcome) (n : Nat)
    (urls : List String) (acts : List PoolAction)
    (hrc : (runPool fetch n urls acts).resultClosed = true) :
    (∀ w ∈ (runPool fetch n urls acts).workers, w.phase = .done)
    ∧ (runPool fetch n urls acts).workers.length = n := by
  have h := inv_run fetch n urls acts
  exact ⟨h.rclosed_done hrc, h.wlen⟩

/-- Concrete witness for C2. -/
theorem C2_close_after_join_witness :
    (runPool fetchOkT 2 urlsT twoSchedule).resultClosed = true
    ∧ ((∀ w ∈ (runPool fetchOkT 2 urlsT twoSchedule).workers, w.phase = .done)
      ∧ (runPool fetchOkT 2 urlsT twoSchedule).workers.length = 2) :=
  ⟨by decide, C2_close_after_join fetchOkT 2 urlsT twoSchedule (by decide)⟩

/-- Claim C3: the Result Collector appends each received Result in arrival
order (the collector's list only grows by appending, under any schedule
extension), and delivers the complete collection exactly once: a delivered
collection equals the collector's list, delivery can only happen after the
result stream closed, and no continuation of the run ever changes the
delivered value (single-use completion signal). -/
theorem C3_collector (fetch : String → FetchOutcome) (n : Nat)
    (urls : List String) (acts ext : List PoolAction) (rs : List ScrapeResult)
    (hd : (runPool fetch n urls acts).delivered = some rs) :
    (runPool fetch n urls acts).resultClosed = true
    ∧ rs = (runPool fetch n urls acts).collected
    ∧ (runPool fetch n urls (acts ++ ext)).delivered = some rs
    ∧ ∃ e, (runPool fetch n urls (acts ++ ext)).collected
        = (runPool fetch n urls acts).collected ++ e := by
  have h := inv_run fetch n urls acts
  have hdel := h.delivered_inv rs hd
  have hext : runPool fetch n urls (acts ++ ext)
      = ext.foldl (stepOr fetch) (runPool fetch n urls acts) := by
    unfold runPool
    rw [List.foldl_append]
  refine ⟨hdel.1, hdel.2, ?_, ?_⟩
  · rw [hext]
    exact foldl_delivered_mono ext _ hd
  · rw [hext]
    exact foldl_collected_mono ext _

/-- Concrete witness for C3: even a schedule extension that tries to deliver
again leaves the delivered collection unchanged. -/
theorem C3_collector_witness :
    (runPool fetchOkT 1 urlsT seqSchedule).delivered
      = some [scrapeURL fetchOkT "a", scrapeURL fetchOkT "b"]
    ∧ ((runPool fetchOkT 1 urlsT seqSchedule).resultClosed = true
      ∧ [scrapeURL fetchOkT "a", scrapeURL fetchOkT "b"]
          = (runPool fetchOkT 1 urlsT seqSchedule).collected
      ∧ (runPool fetchOkT 1 urlsT (seqSchedule ++ [.deliver, .send 0])).delivered
          = some [scrapeURL fetchOkT "a", scrapeURL fetchOkT "b"]
      ∧ ∃ e, (runPool fetchOkT 1 urlsT (seqSchedule ++ [.deliver, .send 0])).collected
          = (runPool fetchOkT 1 urlsT seqSchedule).collected ++ e) :=
  ⟨by decide,
    C3_collector fetchOkT 1 urlsT seqSchedule [.deliver, .send 0] _ (by decide)⟩

/-- Claim C4 counterexample: the claim says a worker count N ≤ 0 makes
pipeline construction fail fast before any worker starts.  The code has no
such validation and no abort path at all: constructed with worker count 0 on
a one-task list, the run does not fail — it proceeds, closes the result
stream (the barrier over zero workers is trivially passed) and delivers a
collection, namely the empty one, silently dropping the submitted task. -/
theorem C4_counterexample :
    (runPool fetchOkT 0 ["https://httpbin.org/get"]
      [.closeResults, .deliver]).delivered = some []
    ∧ mainNumWorkers = 4 := by
  exact ⟨by decide, rfl⟩

/-- Claim C4 amended: the source performs no worker-count validation —
`numWorkers` is the hardcoded literal 4 (so N ≤ 0 never arises in `main`),
there is no fail-fast or abort path, and a pool constructed with 0 workers
still runs to completion: whatever collection it delivers is empty, the
submitted tasks being dropped rather than the run aborted. -/
theorem C4_amended (fetch : String → FetchOutcome) (urls : List String)
    (acts : List PoolAction) (rs : List ScrapeResult)
    (hd : (runPool fetch 0 urls acts).delivered = some rs) :
    rs = [] ∧ mainNumWorkers = 4 := by
  have h := inv_run fetch 0 urls acts
  have hdel := h.delivered_inv rs hd
  have hw : (runPool fetch 0 urls acts).workers = [] :=
    List.length_eq_zero.mp h.wlen
  have hcol : ((runPool fetch 0 urls acts).collected : Multiset ScrapeResult) = 0 := by
    rw [← h.result_account, hw]
    simp
  have hnil : (runPool fetch 0 urls acts).collected = [] :=
    (Multiset.coe_eq_zero _).mp hcol
  exact ⟨hdel.2.trans hnil, rfl⟩

/-- Concrete witness for the amended C4. -/
theorem C4_amended_witness :
    (runPool fetchOkT 0 ["https://httpbin.org/get"]
      [.closeTasks, .closeResults, .deliver]).delivered = some []
    ∧ (([] : List ScrapeResult) = [] ∧ mainNumWorkers = 4) :=
  ⟨by decide,
    C4_amended fetchOkT ["https://httpbin.org/get"] [.closeTasks, .closeResults, .deliver]
      [] (by decide)⟩

/-- Claim C5: a task on which the unit-of-work fails has its error recorded
as data in that task's Result, and the failure never stops a worker or the
pool: in any delivering run with N ≥ 1 workers, the failed task's Result —
carrying the error message — is in the delivered collection, the collection
still has one Result per task, and every worker reached normal `done`
termination. -/
theorem C5_error_is_data (fetch : String → FetchOutcome) (n : Nat)
    (urls : List String) (acts : List PoolAction) (rs : List ScrapeResult)
    (u msg : String) (d : Nat)
    (hn : 1 ≤ n) (hd : (runPool fetch n urls acts).delivered = some rs)
    (hu : u ∈ urls) (hf : fetch u = .err msg d) :
    scrapeURL fetch u ∈ rs
    ∧ (scrapeURL fetch u).Error = some msg
    ∧ rs.length = urls.length
    ∧ ∀ w ∈ (runPool fetch n urls acts).workers, w.phase = .done := by
  have hfacts := final_state_facts (inv_run fetch n urls acts) hn hd
  have hmem : scrapeURL fetch u ∈ urls.map (scrapeURL fetch) :=
    List.mem_map_of_mem _ hu
  have hrs : scrapeURL fetch u ∈ rs := by
    have h1 : scrapeURL fetch u ∈ (↑rs : Multiset ScrapeResult) := by
      rw [hfacts.1]
      exact_mod_cast hmem
    exact_mod_cast h1
  refine ⟨hrs, ?_, ?_, hfacts.2.2.2.1⟩
  · simp [scrapeURL, hf]
  · have := congrArg Multiset.card hfacts.1
    simpa using this

/-- Concrete witness for C5: a run in which every fetch fails. -/
theorem C5_error_is_data_witness :
    ((1 ≤ 1 ∧ (runPool fetchErrT 1 urlsT seqSchedule).delivered
        = some [scrapeURL fetchErrT "a", scrapeURL fetchErrT "b"])
      ∧ ("a" ∈ urlsT ∧ fetchErrT "a" = .err "dial tcp: connection refused" 2))
    ∧ (scrapeURL fetchErrT "a" ∈ [scrapeURL fetchErrT "a", scrapeURL fetchErrT "b"]
      ∧ (scrapeURL fetchErrT "a").Error = some "dial tcp: connection refused"
      ∧ [scrapeURL fetchErrT "a", scrapeURL fetchErrT "b"].length = urlsT.length
      ∧ ∀ w ∈ (runPool fetchErrT 1 urlsT seqSchedule).workers, w.phase = .done) :=
  ⟨⟨⟨by decide, by decide⟩, ⟨by decide, by decide⟩⟩,
    C5_error_is_data fetchErrT 1 urlsT seqSchedule _ "a" "dial tcp: connection refused" 2
      (by decide) (by decide) (by decide) (by decide)⟩

/-- Claim C6: in a delivering run with N ≥ 1 workers, if the unit-of-work
succeeds on every task then every delivered Result has a nil error; if it
fails on every task then every delivered Result carries a non-nil error; and
in both cases the run completes with exactly M Results. -/
theorem C6_uniform_outcome (fetch : String → FetchOutcome) (n : Nat)
    (urls : List String) (acts : List PoolAction) (rs : List ScrapeResult)
    (hn : 1 ≤ n) (hd : (runPool fetch n urls acts).delivered = some rs) :
    ((∀ u ∈ urls, (fetch u).isOk = true) → ∀ r ∈ rs, r.Error = none)
    ∧ ((∀ u ∈ urls, (fetch u).isOk = false) → ∀ r ∈ rs, r.Error ≠ none)
    ∧ rs.length = urls.length := by
  have hfacts := final_state_facts (inv_run fetch n urls acts) hn hd
  have hmem : ∀ r ∈ rs, ∃ u, u ∈ urls ∧ scrapeURL fetch u = r := by
    intro r hr
    have h1 : r ∈ (↑(urls.map (scrapeURL fetch)) : Multiset ScrapeResult) := by
      rw [← hfacts.1]
      exact_mod_cast hr
    have h2 : r ∈ urls.map (scrapeURL fetch) := by exact_mod_cast h1
    exact List.mem_map.mp h2
  refine ⟨?_, ?_, ?_⟩
  · intro hok r hr
    obtain ⟨u, hu, hru⟩ := hmem r hr
    have hisok := hok u hu
    cases hfu : fetch u with
    | ok st len e =>
      rw [← hru]
      simp [scrapeURL, hfu]
    | err m e =>
      rw [hfu] at hisok
      simp [FetchOutcome.isOk] at hisok
  · intro herr r hr
    obtain ⟨u, hu, hru⟩ := hmem r hr
    have hiserr := herr u hu
    cases hfu : fetch u with
    | ok st len e =>
      rw [hfu] at hiserr
      simp [FetchOutcome.isOk] at hiserr
    | err m e =>
      rw [← hru]
      simp [scrapeURL, hfu]
  · have := congrArg Multiset.card hfacts.1
    simpa using this

/-- Concrete witness for C6: an all-failing run delivers M error Results. -/
theorem C6_uniform_outcome_witness :
    (1 ≤ 1 ∧ (runPool fetchErrT 1 urlsT seqSchedule).delivered
      = some [scrapeURL fetchErrT "a", scrapeURL fetchErrT "b"])
    ∧ (((∀ u ∈ urlsT, (fetchErrT u).isOk = true) →
        ∀ r ∈ [scrapeURL fetchErrT "a", scrapeURL fetchErrT "b"], r.Error = none)
      ∧ ((∀ u ∈ urlsT, (fetchErrT u).isOk = false) →
        ∀ r ∈ [scrapeURL fetchErrT "a", scrapeURL fetchErrT "b"], r.Error ≠ none)
      ∧ [scrapeURL fetchErrT "a", scrapeURL fetchErrT "b"].length = urlsT.length) :=
  ⟨⟨by decide, by decide⟩,
    C6_uniform_outcome fetchErrT 1 urlsT seqSchedule _ (by decide) (by decide)⟩

/-- Claim C7: the Task Source emits its finite task list in the fixed list
order — in every reachable state the emitted log followed by the unshipped
tail is exactly the task list — and it signals end-of-input only after the
last task: once the task stream is closed, the whole list has been emitted.
In the model the source's emission is a total step with no other effect than
moving the head URL to a worker, matching the contract that acquiring a task
never fails and the source performs no side effect beyond emitting. -/
theorem C7_source_order (fetch : String → FetchOutcome) (n : Nat)
    (urls : List String) (acts : List PoolAction) :
    (runPool fetch n urls acts).fedLog ++ (runPool fetch n urls acts).pending = urls
    ∧ ((runPool fetch n urls acts).urlClosed = true →
        (runPool fetch n urls acts).fedLog = urls) := by
  have h := inv_run fetch n urls acts
  refine ⟨h.feed_order, ?_⟩
  intro hc
  have hp := h.closed_pending hc
  have h1 := h.feed_order
  rw [hp, List.append_nil] at h1
  exact h1

/-- Concrete witness for C7. -/
theorem C7_source_order_witness :
    (runPool fetchOkT 1 urlsT seqSchedule).urlClosed = true
    ∧ (runPool fetchOkT 1 urlsT seqSchedule).fedLog = urlsT :=
  ⟨by decide, (C7_source_order fetchOkT 1 urlsT seqSchedule).2 (by decide)⟩

/-- Claim C8: within one worker, results are emitted in the order the worker
processed its tasks — in every reachable state each worker's received-task
list maps under `scrapeURL` exactly onto its sent-result list followed by
its at-most-one in-flight result — and with N = 1 the overall processing
order equals submission order: a delivered collection is exactly the scrape
results of the task list in list order. -/
theorem C8_per_worker_order (fetch : String → FetchOutcome) (n : Nat)
    (urls : List String) (acts : List PoolAction) :
    (∀ w ∈ (runPool fetch n urls acts).workers,
        w.tasks.map (scrapeURL fetch) = w.sent ++ w.phase.pendingOut)
    ∧ (∀ rs, n = 1 → (runPool fetch n urls acts).delivered = some rs →
        rs = urls.map (scrapeURL fetch)) := by
  have h := inv_run fetch n urls acts
  refine ⟨h.worker_order, ?_⟩
  intro rs hn hd
  subst hn
  exact seq_delivery hd

/-- Concrete witness for C8: the single-worker run delivers in submission
order. -/
theorem C8_per_worker_order_witness :
    ((runPool fetchOkT 1 urlsT seqSchedule).delivered
      = some [scrapeURL fetchOkT "a", scrapeURL fetchOkT "b"])
    ∧ [scrapeURL fetchOkT "a", scrapeURL fetchOkT "b"] = urlsT.map (scrapeURL fetchOkT) :=
  ⟨by decide,
    (C8_per_worker_order fetchOkT 1 urlsT seqSchedule).2 _ rfl (by decide)⟩

/-- Claim C9: `scrapeURL` returns a result whose URL field equals the input
url and whose Duration field is the measured elapsed time of the fetch, on
the success branch and on the error branch alike. -/
theorem C9_url_duration (fetch : String → FetchOutcome) (url : String) :
    (scrapeURL fetch url).URL = url
    ∧ (scrapeURL fetch url).Duration = (fetch url).elapsed := by
  cases hfu : fetch url with
  | ok st len e => simp [scrapeURL, hfu, FetchOutcome.elapsed]
  | err m e => simp [scrapeURL, hfu, FetchOutcome.elapsed]

/-- Claim C10: on a failed fetch the result carries a non-nil Error together
with zero-valued payload fields (StatusCode 0, ContentLength 0); on a
successful fetch Error is nil and the payload fields carry the response
values — error and populated payload are mutually exclusive, failure results
still carrying the zero-valued payload fields. -/
theorem C10_error_payload (fetch : String → FetchOutcome) (url : String) :
    (∀ msg d, fetch url = .err msg d →
      (scrapeURL fetch url).Error = some msg
      ∧ (scrapeURL fetch url).StatusCode = 0
      ∧ (scrapeURL fetch url).ContentLength = 0)
    ∧ (∀ st len d, fetch url = .ok st len d →
      (scrapeURL fetch url).Error = none
      ∧ (scrapeURL fetch url).StatusCode = st
      ∧ (scrapeURL fetch url).ContentLength = len) := by
  constructor
  · intro msg d hfu
    simp [scrapeURL, hfu]
  · intro st len d hfu
    simp [scrapeURL, hfu]

/-- Concrete witness for C10. -/
theorem C10_error_payload_witness :
    fetchErrT "a" = .err "dial tcp: connection refused" 2
    ∧ ((scrapeURL fetchErrT "a").Error = some "dial tcp: connection refused"
      ∧ (scrapeURL fetchErrT "a").StatusCode = 0
      ∧ (scrapeURL fetchErrT "a").ContentLength = 0) :=
  ⟨rfl, (C10_error_payload fetchErrT "a").1 "dial tcp: connection refused" 2 rfl⟩
